import Mathlib

/-!
Shallow embedding of the Health Label DXF generator (src/streamlit_app.py).

The embedding mirrors the source components:
* `parseUploadedFiles` — the input normalizer (`parse_uploaded_files`),
  including the greedy regex `^(.+)_x(\d+)$` modelled by `qtyMatch`.
* `cropDark`, `estimatePx`, `moduleCountOf`, `qrSquares`, `drawQrFromImage`
  — the QR vectorizer (`HealthLabelGenerator._draw_qr_from_image`).
* `drawLabel`, `cellEdges`, `cellLines`, `cellGroup`, `createDxf`
  — the per-page layout (`create_dxf` / `_draw_label`).
* `createMultiPageDxf` — the page splitter (`create_multi_page_dxf`),
  returning the per-page label slices; a Python `ZeroDivisionError` is
  modelled as `Except.error`.

Sheet geometry is modelled by `ℚ`.  The vectorizer's statistics are
exact half-integer arithmetic, carried over ℕ: `medianNum2` is twice
numpy's median, `roundHalf2` and `pyRoundDiv` are Python's banker's
rounding (`round`) of a half-integer and of a quotient.  Python `dict`
assignment is `dictSet` on association lists.  Grayscale rasters are
`List (List Nat)` (one value per pixel, dark below the 128 threshold).
-/

/-- One abstract drawing primitive, as emitted to the DXF modelspace:
`add_line`, `add_lwpolyline`, `add_mtext`, or one QR hatch square. -/
inductive Primitive where
  | line (p1 p2 : ℚ × ℚ) (layer : String)
  | polyline (pts : List (ℚ × ℚ)) (layer : String) (width : ℚ)
  | text (content : String) (anchor : ℚ × ℚ) (height : ℚ) (layer : String) (style : String)
  | poly (pts : List (ℚ × ℚ)) (layer : String)
deriving DecidableEq

/-- The configuration record (source `DEFAULT_CONFIG` merged with overrides). -/
structure SheetConfig where
  canvasW : ℚ
  canvasH : ℚ
  labelW : ℚ
  labelH : ℚ
  qrSize : ℚ
  qrXOff : ℚ
  qrYOff : ℚ
  lineWidth : ℚ
  orgName : String
  subtitle1 : String
  subtitle2 : String
  footerText : String
deriving DecidableEq

/-- The source's `DEFAULT_CONFIG` values. -/
def defaultConfig : SheetConfig :=
  { canvasW := 600, canvasH := 300, labelW := 65, labelH := 20
    qrSize := 23/2, qrXOff := 49, qrYOff := 3, lineWidth := 3/10
    orgName := "HEALTH", subtitle1 := "South Eastern Sydney"
    subtitle2 := "Local Health District"
    footerText := "DO NOT REMOVE ASSET - CONTACT TAM" }

/-! ## Input normalizer (`parse_uploaded_files`) -/

/-- Value of a decimal digit string, as Python `int` reads it
(leading zeros allowed). -/
def digitsVal (ds : List Char) : Nat :=
  ds.foldl (fun a c => a * 10 + (c.toNat - 48)) 0

/-- Does position `i` of `s` begin a valid `_x<digits>` tail?  This is a
split point of the regex `^(.+)_x(\d+)$`: a nonempty group 1 (`1 ≤ i`),
the literal `_x`, and a nonempty all-digit remainder. -/
def okAt (s : List Char) (i : Nat) : Bool :=
  decide (1 ≤ i) && ((s.drop i).take 2 == ['_', 'x'])
    && !(s.drop (i + 2)).isEmpty && (s.drop (i + 2)).all Char.isDigit

/-- Scan split positions downward from `i - 1`; the first success is the
largest valid split, i.e. the greedy match of `(.+)`. -/
def findSplitFrom (s : List Char) : Nat → Option Nat
  | 0 => none
  | i + 1 => if okAt s i then some i else findSplitFrom s i

/-- `re.match(r'^(.+)_x(\d+)$', name)`: the group-1 characters and the
numeric value of group 2, or `none` when the stem does not match. -/
def qtyMatch (s : List Char) : Option (List Char × Nat) :=
  match findSplitFrom s s.length with
  | some i => some (s.take i, digitsVal (s.drop (i + 2)))
  | none => none

/-- The label names one stem contributes: `base` repeated `qty` times when
the pattern matches, otherwise the literal stem once. -/
def expandStem (name : String) : List String :=
  match qtyMatch name.data with
  | some (base, qty) => List.replicate qty (String.mk base)
  | none => [name]

/-- The key a stem's raster is registered under: the matched base name,
otherwise the literal stem. -/
def baseOf (name : String) : String :=
  match qtyMatch name.data with
  | some (base, _) => String.mk base
  | none => name

/-- Python `dict` assignment `d[k] = v` on an association list. -/
def dictSet (d : List (String × α)) (k : String) (v : α) : List (String × α) :=
  if d.any (fun e => e.1 == k) then
    d.map (fun e => if e.1 == k then (k, v) else e)
  else d ++ [(k, v)]

/-- Python `dict` lookup `d.get(k)` on an association list. -/
def dictGet (d : List (String × α)) (k : String) : Option α :=
  (d.find? (fun e => e.1 == k)).map (·.2)

/-- `sorted(uploaded_files, key=lambda x: x.name)`. -/
def sortEntries (l : List (String × α)) : List (String × α) :=
  l.insertionSort (fun a b => a.1 ≤ b.1)

/-- One iteration of the parsing loop: match the stem, extend the label
list, and register the raster payload. -/
def parseStep (acc : List String × List (String × α)) (e : String × α) :
    List String × List (String × α) :=
  match qtyMatch e.1.data with
  | some (base, qty) =>
      (acc.1 ++ List.replicate qty (String.mk base), dictSet acc.2 (String.mk base) e.2)
  | none => (acc.1 ++ [e.1], dictSet acc.2 e.1 e.2)

/-- `parse_uploaded_files`: stems processed in sorted order, producing the
expanded label sequence and the raster registry. -/
def parseUploadedFiles (l : List (String × α)) : List String × List (String × α) :=
  (sortEntries l).foldl parseStep ([], [])

/-! ## QR vectorizer (`_draw_qr_from_image`) -/

/-- Width of a rectangular grid (length of its first row). -/
def gWidth (g : List (List α)) : Nat :=
  (g.head?.map List.length).getD 0

/-- A grid is rectangular (numpy's `np.array` precondition). -/
def Rect (g : List (List α)) : Prop :=
  ∀ row ∈ g, row.length = gWidth g

instance decidableRect (g : List (List α)) : Decidable (Rect g) :=
  inferInstanceAs (Decidable (∀ row ∈ g, row.length = gWidth g))

/-- `img_array = np.array(img) < 128`. -/
def binarize (img : List (List Nat)) : List (List Bool) :=
  img.map (fun row => row.map (fun p => decide (p < 128)))

/-- `np.any(img_array, 1)`: per-row dark flag. -/
def rowAny (g : List (List Bool)) : List Bool :=
  g.map (fun r => r.any id)

/-- `np.any(img_array, 0)`: per-column dark flag. -/
def colAny (g : List (List Bool)) : List Bool :=
  (List.range (gWidth g)).map (fun j => g.any (fun row => row.getD j false))

/-- Index of the first `true` (`np.where(...)[0][0]`). -/
def firstTrue (l : List Bool) : Nat := l.findIdx id

/-- Index of the last `true` (`np.where(...)[0][-1]`). -/
def lastTrue (l : List Bool) : Nat := l.length - 1 - l.reverse.findIdx id

/-- Does the binarized raster contain a dark pixel (`rows.any()`)? -/
def hasDark (img : List (List Nat)) : Bool :=
  (rowAny (binarize img)).any id

/-- Binarize and crop to the tight bounding box of the dark pixels
(`img_array[r0:r1+1, c0:c1+1]`); `none` on an all-light raster
(the early `return`). -/
def cropDark (img : List (List Nat)) : Option (List (List Bool)) :=
  let g := binarize img
  let rows := rowAny g
  if rows.any id then
    let cols := colAny g
    let r0 := firstTrue rows
    let r1 := lastTrue rows
    let c0 := firstTrue cols
    let c1 := lastTrue cols
    some (((g.take (r1 + 1)).drop r0).map (fun row => (row.take (c1 + 1)).drop c0))
  else none

/-- `np.where(np.diff(line.astype(int)) != 0)[0]`: indices where adjacent
pixels differ (pairing each pixel with its successor). -/
def transIdx (l : List Bool) : List Nat :=
  (l.zipWith (fun a b => a != b) l.tail).enum.filterMap
    (fun e => if e.2 then some e.1 else none)

/-- `np.diff(trans)`: gaps between consecutive transitions. -/
def gapsOf (t : List Nat) : List Nat :=
  t.zipWith (fun a b => b - a) t.tail

/-- The run lengths one sampled line contributes (`if len(trans) > 1`). -/
def lineGaps (l : List Bool) : List Nat :=
  let t := transIdx l
  if t.length > 1 then gapsOf t else []

/-- `range(0, stop, step)` for a positive step. -/
def pyRangeStep (stop step : Nat) : List Nat :=
  (List.range ((stop + step - 1) / step)).map (· * step)

/-- All candidate module pixel widths: gaps from ~10 sampled rows followed
by gaps from ~10 sampled columns. -/
def runLengths (qr : List (List Bool)) : List Nat :=
  let h := qr.length
  let w := gWidth qr
  (pyRangeStep h (max 1 (h / 10))).flatMap (fun i => lineGaps (qr.getD i []))
    ++ (pyRangeStep w (max 1 (w / 10))).flatMap
        (fun j => lineGaps (qr.map (fun row => row.getD j false)))

/-- Twice the value of `np.median` on a nonempty list of naturals: twice
the middle element of the sorted list, or the sum of the two middle
elements.  The median of naturals is either an integer or a half-integer,
so carrying its double keeps the computation exact over ℕ. -/
def medianNum2 (l : List Nat) : Nat :=
  let s := l.insertionSort (· ≤ ·)
  if l.length % 2 = 1 then 2 * s.getD (l.length / 2) 0
  else s.getD (l.length / 2 - 1) 0 + s.getD (l.length / 2) 0

/-- Python `round(a / 2)` for a natural `a`: round half to even
(banker's rounding), exactly as `round` behaves on the median value. -/
def roundHalf2 (a : Nat) : Nat :=
  if a % 2 = 0 then a / 2
  else if (a / 2) % 2 = 0 then a / 2 else a / 2 + 1

/-- Python `round(a / b)` for naturals with `b > 0`: round half to even. -/
def pyRoundDiv (a b : Nat) : Nat :=
  let q := a / b
  let r := a % b
  if 2 * r < b then q
  else if b < 2 * r then q + 1
  else if q % 2 = 0 then q else q + 1

/-- Robust module-pixel-size estimate: median of the transition gaps after
rejecting outliers outside `[0.5·median, 1.5·median]` (the bound checks
`median*0.5 ≤ g ≤ median*1.5` become `med2 ≤ 4g ∧ 4g ≤ 3·med2` for
`med2` twice the median); fallback `min(h, w) // 21` on a transition-free
crop; clamped to at least 1. -/
def estimatePx (qr : List (List Bool)) : Nat :=
  let h := qr.length
  let w := gWidth qr
  let rl := runLengths qr
  let px :=
    if rl.isEmpty then max 1 (min h w / 21)
    else
      let med2 := medianNum2 rl
      let filtered := rl.filter (fun g => med2 ≤ 4 * g && 4 * g ≤ 3 * med2)
      if filtered.isEmpty then roundHalf2 med2 else roundHalf2 (medianNum2 filtered)
  max 1 px

/-- `n = max(round(w/px), round(h/px))` clamped to `[21, 177]`. -/
def moduleCountOf (qr : List (List Bool)) : Nat :=
  let h := qr.length
  let w := gWidth qr
  let px := estimatePx qr
  let n := max (pyRoundDiv w px) (pyRoundDiv h px)
  max 21 (min n 177)

/-- The module-count estimate the vectorizer derives from a raster, when
the raster has a dark pixel. -/
def moduleCountEst (img : List (List Nat)) : Option Nat :=
  (cropDark img).map moduleCountOf

/-- Column sample index `min(int((c + 0.5) * w / n), w - 1)`, written
exactly as `min ((2c+1)·w / (2n)) (w - 1)` over ℕ. -/
def sampleIx (qr : List (List Bool)) (c : Nat) : Nat :=
  let w := gWidth qr
  min ((2 * c + 1) * w / (2 * moduleCountOf qr)) (w - 1)

/-- Row sample index `min(int((r + 0.5) * h / n), h - 1)`, written
exactly as `min ((2r+1)·h / (2n)) (h - 1)` over ℕ. -/
def sampleIy (qr : List (List Bool)) (r : Nat) : Nat :=
  let h := qr.length
  min ((2 * r + 1) * h / (2 * moduleCountOf qr)) (h - 1)

/-- The filled square emitted for the dark module at grid position
`(r, c)`: side `mm = size/n`, placed at
`(dxf_x + c·mm, dxf_y + (n-1-r)·mm)`. -/
def moduleSquare (dxfX dxfY size : ℚ) (n r c : Nat) : Primitive :=
  let mm := size / (n : ℚ)
  let mx := dxfX + (c : ℚ) * mm
  let my := dxfY + ((n - 1 - r : Nat) : ℚ) * mm
  Primitive.poly [(mx, my), (mx + mm, my), (mx + mm, my + mm), (mx, my + mm)] "QR"

/-- One filled unit square per dark module, in sheet coordinates
(row 0 of the module grid at the top of the placement). -/
def qrSquares (qr : List (List Bool)) (dxfX dxfY size : ℚ) : List Primitive :=
  let n := moduleCountOf qr
  (List.range n).flatMap (fun r =>
    (List.range n).filterMap (fun c =>
      if (qr.getD (sampleIy qr r) []).getD (sampleIx qr c) false then
        some (moduleSquare dxfX dxfY size n r c)
      else none))

/-- `_draw_qr_from_image`: crop, estimate the module grid, emit squares;
an all-light raster yields no primitives. -/
def drawQrFromImage (img : List (List Nat)) (dxfX dxfY size : ℚ) : List Primitive :=
  match cropDark img with
  | none => []
  | some qr => qrSquares qr dxfX dxfY size

/-- Replicate every pixel `k` times in both dimensions. -/
def upscaleImg (k : Nat) (img : List (List Nat)) : List (List Nat) :=
  img.flatMap (fun row => List.replicate k (row.flatMap (fun p => List.replicate k p)))

/-! ## Label layout (`create_dxf` / `_draw_label`) -/

/-- `_draw_label`: five text primitives, the divider polyline, and the QR
squares when a raster is registered under the label's name; every
emitted y-coordinate passes through `flipY sy = grid_h - sy`. -/
def drawLabel (cfg : SheetConfig) (x y : ℚ) (name : String) (gridH : ℚ)
    (imgs : List (String × List (List Nat))) : List Primitive :=
  let flipY := fun (sy : ℚ) => gridH - sy
  let texts : List (String × ℚ × ℚ × ℚ) :=
    [(cfg.orgName, x + 13, y + 47/10, 2),
     (cfg.subtitle1, x + 13, y + 36/5, 13/10),
     (cfg.subtitle2, x + 13, y + 46/5, 13/10),
     (name, x + 7, y + 157/10, 2),
     (cfg.footerText, x + 19, y + 18, 1)]
  texts.map (fun t => Primitive.text t.1 (t.2.1, flipY t.2.2.1) t.2.2.2 "TEXT" "CALIBRI")
    ++ [Primitive.polyline [(x + 61/5, flipY (y + 11/5)), (x + 61/5, flipY (y + 51/5))]
          "TEXT" cfg.lineWidth]
    ++ (match dictGet imgs name with
        | some img =>
            drawQrFromImage img (x + cfg.qrXOff) (flipY (y + cfg.qrYOff + cfg.qrSize)) cfg.qrSize
        | none => [])

/-- The four edge flags `(left, right, top, bottom)` of a cell:
`col == 0`, `col == used_cols - 1`, `row == 0`, `row == used_rows - 1`
(the comparisons are over ℤ as in Python). -/
def cellEdges (col row usedCols usedRows : Nat) : Bool × Bool × Bool × Bool :=
  (decide ((col : ℤ) = 0), decide ((col : ℤ) = (usedCols : ℤ) - 1),
   decide ((row : ℤ) = 0), decide ((row : ℤ) = (usedRows : ℤ) - 1))

/-- Layer for a border line: `Cutting` when the edge touches the used
extent, `Break` otherwise. -/
def edgeLayer (b : Bool) : String :=
  if b then "Cutting" else "Break"

/-- The four border lines of one cell, in source emission order
(bottom, right, top, left in DXF coordinates). -/
def cellLines (x y lw lh gridH : ℚ) (e : Bool × Bool × Bool × Bool) : List Primitive :=
  let dx := x
  let dy := gridH - y - lh
  [Primitive.line (dx, dy) (dx + lw, dy) (edgeLayer e.2.2.2),
   Primitive.line (dx + lw, dy) (dx + lw, dy + lh) (edgeLayer e.2.1),
   Primitive.line (dx + lw, dy + lh) (dx, dy + lh) (edgeLayer e.2.2.1),
   Primitive.line (dx, dy + lh) (dx, dy) (edgeLayer e.1)]

/-- Everything `create_dxf` emits for the label at loop index `idx`:
its four border lines followed by its `_draw_label` content. -/
def cellGroup (cfg : SheetConfig) (cols usedCols usedRows : Nat) (gridH : ℚ)
    (imgs : List (String × List (List Nat))) (idx : Nat) (name : String) : List Primitive :=
  let col := idx % cols
  let row := idx / cols
  let x := (col : ℚ) * cfg.labelW
  let y := (row : ℚ) * cfg.labelH
  cellLines x y cfg.labelW cfg.labelH gridH (cellEdges col row usedCols usedRows)
    ++ drawLabel cfg x y name gridH imgs

/-- `create_dxf`: the primitives of one page. -/
def createDxf (cfg : SheetConfig) (labels : List String)
    (imgs : List (String × List (List Nat))) : List Primitive :=
  let cols := (Int.floor (cfg.canvasW / cfg.labelW)).toNat
  let rowsMax := (Int.floor (cfg.canvasH / cfg.labelH)).toNat
  let usedCols := min cols labels.length
  let usedRows := (labels.length + cols - 1) / cols
  let gridH := (usedRows : ℚ) * cfg.labelH
  (labels.take (cols * rowsMax)).enum.flatMap
    (fun e => cellGroup cfg cols usedCols usedRows gridH imgs e.1 e.2)

/-- Is a primitive a `Line` entity? -/
def isLine : Primitive → Bool
  | .line _ _ _ => true
  | _ => false

/-- Centroid of a polygon's vertex list (mean of the vertices). -/
def centroid (pts : List (ℚ × ℚ)) : ℚ × ℚ :=
  ((pts.map Prod.fst).sum / (pts.length : ℚ), (pts.map Prod.snd).sum / (pts.length : ℚ))

/-! ## Page splitter (`create_multi_page_dxf`) -/

/-- Clamp one Python slice bound to `[0, len]` (`l[a:b]` semantics for
integer bounds). -/
def pySliceIdx (len : Nat) (i : ℤ) : Nat :=
  if i < 0 then (len + i).toNat else min i.toNat len

/-- Python list slice `l[a:b]` for integer bounds. -/
def pySlice (l : List α) (a b : ℤ) : List α :=
  (l.take (pySliceIdx l.length b)).drop (pySliceIdx l.length a)

/-- `create_multi_page_dxf`, modelled as the list of per-page label
slices; a Python `ZeroDivisionError` becomes `Except.error`. -/
def createMultiPageDxf (cfg : SheetConfig) (labels : List String) :
    Except String (List (List String)) :=
  if cfg.labelW = 0 then .error "ZeroDivisionError"
  else if cfg.labelH = 0 then .error "ZeroDivisionError"
  else
    let cols := Int.floor (cfg.canvasW / cfg.labelW)
    let perPage := cols * Int.floor (cfg.canvasH / cfg.labelH)
    if perPage = 0 then .error "ZeroDivisionError"
    else
      .ok ((List.range (Int.toNat (Int.fdiv ((labels.length : ℤ) + perPage - 1) perPage))).map
        (fun (p : Nat) => pySlice labels ((p : ℤ) * perPage) (((p : ℤ) + 1) * perPage)))

/-! ## Concrete inputs used by the claims -/

/-- A synthetic 21-by-21 QR module pattern: finder patterns in three
corners, separators, timing lines, checkerboard data, with the first
module row and first module column fully dark. -/
def qrPattern : List (List Bool) :=
  [[true, true, true, true, true, true, true, true, true, true, true, true, true, true, true, true, true, true, true, true, true],
   [true, false, false, false, false, false, true, false, false, true, false, true, false, false, true, false, false, false, false, false, true],
   [true, false, true, true, true, false, true, false, true, false, true, false, true, false, true, false, true, true, true, false, true],
   [true, false, true, true, true, false, true, false, false, true, false, true, false, false, true, false, true, true, true, false, true],
   [true, false, true, true, true, false, true, false, true, false, true, false, true, false, true, false, true, true, true, false, true],
   [true, false, false, false, false, false, true, false, false, true, false, true, false, false, true, false, false, false, false, false, true],
   [true, true, true, true, true, true, true, false, true, false, true, false, true, false, true, true, true, true, true, true, true],
   [true, false, false, false, false, false, false, false, false, true, false, true, false, false, false, false, false, false, false, false, false],
   [true, false, true, false, true, false, true, false, true, false, true, false, true, false, true, false, true, false, true, false, true],
   [true, true, false, true, false, true, false, true, false, true, false, true, false, true, false, true, false, true, false, true, false],
   [true, false, true, false, true, false, true, false, true, false, true, false, true, false, true, false, true, false, true, false, true],
   [true, true, false, true, false, true, false, true, false, true, false, true, false, true, false, true, false, true, false, true, false],
   [true, false, true, false, true, false, true, false, true, false, true, false, true, false, true, false, true, false, true, false, true],
   [true, false, false, false, false, false, false, false, false, true, false, true, false, true, false, true, false, true, false, true, false],
   [true, true, true, true, true, true, true, false, true, false, true, false, true, false, true, false, true, false, true, false, true],
   [true, false, false, false, false, false, true, false, false, true, false, true, false, true, false, true, false, true, false, true, false],
   [true, false, true, true, true, false, true, false, true, false, true, false, true, false, true, false, true, false, true, false, true],
   [true, false, true, true, true, false, true, false, false, true, false, true, false, true, false, true, false, true, false, true, false],
   [true, false, true, true, true, false, true, false, true, false, true, false, true, false, true, false, true, false, true, false, true],
   [true, false, false, false, false, false, true, false, false, true, false, true, false, true, false, true, false, true, false, true, false],
   [true, true, true, true, true, true, true, false, true, false, true, false, true, false, true, false, true, false, true, false, true]]

/-- The synthetic 210x210 test image: the 21-module symbol rendered at
10 pixels per module (dark = 0, light = 255). -/
def synth210 : List (List Nat) :=
  upscaleImg 10 (qrPattern.map (fun row => row.map (fun b => if b then 0 else 255)))

/-- First row of a small raster on which the module-count estimate is not
scale invariant: transition gaps 1, 1, 2, 2 whose median is 3/2. -/
def cxRow0 : List Nat :=
  List.replicate 11 0 ++ [255] ++ [0] ++ List.replicate 2 255 ++ List.replicate 2 0
    ++ List.replicate 25 255

/-- A 2x42 raster: `cxRow0` above an all-dark row. -/
def cxRaster : List (List Nat) := [cxRow0, List.replicate 42 0]

/-- A configuration with a negative (hence non-positive) label width. -/
def cfgNegW : SheetConfig := { defaultConfig with labelW := -5 }

/-- A configuration whose label is wider than the canvas. -/
def cfgWideLabel : SheetConfig := { defaultConfig with labelW := 700 }

/-- Every pixel of the raster is at or above the mid-luminance
threshold 128 (no dark pixel). -/
def allLight (img : List (List Nat)) : Bool :=
  img.all (fun row => row.all (fun p => decide (128 <= p)))

/-- A 1×43 raster: two dark pixels, 40 light, one dark — the QR
vectorizer estimates `px = 40`, `n = 1`, clamped to 21. -/
def c8img : List (List Nat) := [[0, 0] ++ List.replicate 40 255 ++ [0]]

/-- The binarized crop of `c8img`. -/
def c8qr : List (List Bool) := [[true, true] ++ List.replicate 40 false ++ [true]]

/-- The first module square emitted for `c8img` at origin `(49, 11/2)`
with size `23/2`. -/
def c8pts : List (ℚ × ℚ) :=
  [(49, 691/42), (2081/42, 691/42), (2081/42, 17), (49, 17)]

/-! # Theorems -/

set_option maxRecDepth 1000000

set_option maxHeartbeats 40000000 in
/-- **C1**, counterexample: the module-count estimate is not invariant
under uniform integer upscaling for every raster containing a dark
pixel.  The 2×42 raster `cxRaster` yields `n = 21`, while its uniform
2× upscaling yields `n = 28`. -/
theorem moduleCount_not_scale_invariant :
    moduleCountEst cxRaster = some 21 ∧
    moduleCountEst (upscaleImg 2 cxRaster) = some 28 ∧
    moduleCountEst (upscaleImg 2 cxRaster) ≠ moduleCountEst cxRaster :=
  ⟨by decide, by decide, by decide⟩

set_option maxHeartbeats 40000000 in
/-- **C1** (amended): the estimate is not invariant under uniform integer
upscaling in general (see the counterexample), but the cited instance
holds: a synthetic 210×210 image of a 21×21-module symbol yields
`n = 21`, and so does its uniform 2× upscaling to 420×420. -/
theorem moduleCount_synthetic_scale_instance :
    moduleCountEst synth210 = some 21 ∧
    moduleCountEst (upscaleImg 2 synth210) = some 21 :=
  ⟨by decide, by decide⟩

/-- **C4**, counterexample: generation with a non-positive label
dimension does not fail fast with a configuration error — no validation
runs at all.  With `label_width = -5` and one label, page generation
returns successfully, producing a single empty page. -/
theorem no_eager_validation_counterexample :
    createMultiPageDxf cfgNegW ["A"] = Except.ok [[]] := by
  have hW : ¬(cfgNegW.labelW = (0:ℚ)) := by norm_num [cfgNegW, defaultConfig]
  have hH : ¬(cfgNegW.labelH = (0:ℚ)) := by norm_num [cfgNegW, defaultConfig]
  have hfW : Int.floor (cfgNegW.canvasW / cfgNegW.labelW) = -120 := by
    norm_num [cfgNegW, defaultConfig]
  have hfH : Int.floor (cfgNegW.canvasH / cfgNegW.labelH) = 15 := by
    norm_num [cfgNegW, defaultConfig]
  simp only [createMultiPageDxf, hfW, hfH, if_neg hW, if_neg hH]
  rfl

/-- **C4** (amended): the code performs no eager configuration
validation.  A non-positive label dimension produces no configuration
error (a −5 mm label width with one label silently yields one empty
page), and a label dimension larger than the canvas surfaces only as a
`ZeroDivisionError` when the page capacity `cols_per_page = 0` is used
as a divisor. -/
theorem no_eager_validation :
    createMultiPageDxf cfgNegW ["A"] = Except.ok [[]] ∧
    createMultiPageDxf cfgWideLabel ["A"] = Except.error "ZeroDivisionError" := by
  constructor
  · have hW : ¬(cfgNegW.labelW = (0:ℚ)) := by norm_num [cfgNegW, defaultConfig]
    have hH : ¬(cfgNegW.labelH = (0:ℚ)) := by norm_num [cfgNegW, defaultConfig]
    have hfW : Int.floor (cfgNegW.canvasW / cfgNegW.labelW) = -120 := by
      norm_num [cfgNegW, defaultConfig]
    have hfH : Int.floor (cfgNegW.canvasH / cfgNegW.labelH) = 15 := by
      norm_num [cfgNegW, defaultConfig]
    simp only [createMultiPageDxf, hfW, hfH, if_neg hW, if_neg hH]
    rfl
  · have hW : ¬(cfgWideLabel.labelW = (0:ℚ)) := by norm_num [cfgWideLabel, defaultConfig]
    have hH : ¬(cfgWideLabel.labelH = (0:ℚ)) := by norm_num [cfgWideLabel, defaultConfig]
    have hfW : Int.floor (cfgWideLabel.canvasW / cfgWideLabel.labelW) = 0 := by
      norm_num [cfgWideLabel, defaultConfig]
    have hfH : Int.floor (cfgWideLabel.canvasH / cfgWideLabel.labelH) = 15 := by
      norm_num [cfgWideLabel, defaultConfig]
    simp only [createMultiPageDxf, hfW, hfH, if_neg hW, if_neg hH]
    rfl

/-- **C5**, counterexample: a `_x0` suffix is *not* treated as no match.
`re.match(r'^(.+)_x(\d+)$', "A_x0")` succeeds with `N = 0`, so the label
list receives nothing (not the literal stem once) and the raster is
registered under the base `"A"` (not under `"A_x0"`). -/
theorem parse_x0_counterexample :
    parseUploadedFiles [("A_x0", (0 : Nat))] = (([] : List String), [("A", 0)]) ∧
    (parseUploadedFiles [("A_x0", (0 : Nat))]).1 ≠ ["A_x0"] :=
  ⟨rfl, by decide⟩

/-- **C5** (amended): a stem whose suffix fails the digit pattern (for
example a non-numeric suffix) is treated as no match — the literal stem
is appended once and its raster registered under the literal stem — and
no input causes a fatal parsing error; but `_x0` *does* match the
pattern with `N = 0`: nothing is appended and the raster is registered
under the base name. -/
theorem parse_illformed_suffix {α : Type} (s : String) (d : α)
    (h : qtyMatch s.data = none) :
    parseUploadedFiles [(s, d)] = ([s], [(s, d)]) ∧
    parseUploadedFiles [("A_x0", d)] = (([] : List String), [("A", d)]) := by
  constructor
  · show (sortEntries [(s, d)]).foldl parseStep ([], []) = ([s], [(s, d)])
    have hs : sortEntries [(s, d)] = [(s, d)] := rfl
    rw [hs]
    show parseStep ([], []) (s, d) = ([s], [(s, d)])
    unfold parseStep
    rw [h]
    rfl
  · rfl

/-- Witness for the amended **C5** at the concrete non-numeric stem
`"B_xq"`. -/
theorem parse_illformed_suffix_witness :
    qtyMatch "B_xq".data = none ∧
    parseUploadedFiles [("B_xq", (0 : Nat))] = (["B_xq"], [("B_xq", 0)]) :=
  ⟨by decide, (parse_illformed_suffix "B_xq" (0 : Nat) (by decide)).1⟩

/-- Every primitive of `qrSquares` is a filled module square with in-range
module coordinates. -/
theorem exists_of_mem_qrSquares {qr : List (List Bool)} {dxfX dxfY size : ℚ} {p : Primitive}
    (hp : p ∈ qrSquares qr dxfX dxfY size) :
    ∃ r c, r < moduleCountOf qr ∧ c < moduleCountOf qr ∧
      p = moduleSquare dxfX dxfY size (moduleCountOf qr) r c := by
  simp only [qrSquares, List.mem_flatMap, List.mem_filterMap, List.mem_range] at hp
  obtain ⟨r, hr, c, hc, hres⟩ := hp
  refine ⟨r, c, hr, hc, ?_⟩
  split at hres
  · exact (Option.some_inj.mp hres).symm
  · exact absurd hres (by simp)

/-- `_draw_label` never emits a `Line` primitive: its output is text,
one polyline, and QR squares. -/
theorem not_isLine_of_mem_drawLabel {cfg : SheetConfig} {x y gridH : ℚ} {name : String}
    {imgs : List (String × List (List Nat))} {p : Primitive}
    (hp : p ∈ drawLabel cfg x y name gridH imgs) : isLine p = false := by
  simp only [drawLabel, List.mem_append, List.mem_map, List.mem_singleton] at hp
  rcases hp with (hp | hp) | hp
  · obtain ⟨t, _, rfl⟩ := hp
    rfl
  · rw [hp]
    rfl
  · rcases hq : dictGet imgs name with _ | img
    · rw [hq] at hp
      exact absurd hp (by simp)
    · rw [hq] at hp
      simp only [drawQrFromImage] at hp
      rcases hcrop : cropDark img with _ | qr
      · rw [hcrop] at hp
        exact absurd hp (by simp)
      · rw [hcrop] at hp
        obtain ⟨r, c, _, _, rfl⟩ := exists_of_mem_qrSquares hp
        rfl

/-- **C3** (confirmed): every label's cell emits exactly 4 `Line`
primitives; the four border lines carry the classification
`cellEdges (col, row, used_cols, used_rows)` — an edge is on the
`Cutting` layer iff the cell touches the used extent on that side
(`col = 0` left, `col = used_cols - 1` right, `row = 0` top,
`row = used_rows - 1` bottom, integer comparisons as in the source),
`Break` otherwise; the classification is a pure function of
`(col, row, used_cols, used_rows)`; and a 1×1 page classifies all four
edges as cut. -/
theorem cell_edge_classification (cfg : SheetConfig) (cols usedCols usedRows idx : Nat)
    (gridH : ℚ) (imgs : List (String × List (List Nat))) (name : String) :
    ((cellGroup cfg cols usedCols usedRows gridH imgs idx name).filter isLine).length = 4 ∧
    (cellGroup cfg cols usedCols usedRows gridH imgs idx name).filter isLine =
      cellLines (((idx % cols : Nat) : ℚ) * cfg.labelW) (((idx / cols : Nat) : ℚ) * cfg.labelH)
        cfg.labelW cfg.labelH gridH (cellEdges (idx % cols) (idx / cols) usedCols usedRows) ∧
    ((cellEdges (idx % cols) (idx / cols) usedCols usedRows).1 = true ↔ idx % cols = 0) ∧
    ((cellEdges (idx % cols) (idx / cols) usedCols usedRows).2.1 = true ↔
      ((idx % cols : Nat) : ℤ) = (usedCols : ℤ) - 1) ∧
    ((cellEdges (idx % cols) (idx / cols) usedCols usedRows).2.2.1 = true ↔ idx / cols = 0) ∧
    ((cellEdges (idx % cols) (idx / cols) usedCols usedRows).2.2.2 = true ↔
      ((idx / cols : Nat) : ℤ) = (usedRows : ℤ) - 1) ∧
    edgeLayer true = "Cutting" ∧ edgeLayer false = "Break" ∧
    cellEdges 0 0 1 1 = (true, true, true, true) := by
  have hnl : (drawLabel cfg (((idx % cols : Nat) : ℚ) * cfg.labelW)
      (((idx / cols : Nat) : ℚ) * cfg.labelH) name gridH imgs).filter isLine = [] :=
    List.filter_eq_nil_iff.mpr (fun p hp => by
      simp [not_isLine_of_mem_drawLabel hp])
  have hsplit : (cellGroup cfg cols usedCols usedRows gridH imgs idx name).filter isLine =
      cellLines (((idx % cols : Nat) : ℚ) * cfg.labelW) (((idx / cols : Nat) : ℚ) * cfg.labelH)
        cfg.labelW cfg.labelH gridH (cellEdges (idx % cols) (idx / cols) usedCols usedRows) := by
    show ((cellLines (((idx % cols : Nat) : ℚ) * cfg.labelW)
        (((idx / cols : Nat) : ℚ) * cfg.labelH) cfg.labelW cfg.labelH gridH
        (cellEdges (idx % cols) (idx / cols) usedCols usedRows))
      ++ drawLabel cfg (((idx % cols : Nat) : ℚ) * cfg.labelW)
        (((idx / cols : Nat) : ℚ) * cfg.labelH) name gridH imgs).filter isLine = _
    rw [List.filter_append, hnl, List.append_nil]
    rfl
  refine ⟨by rw [hsplit]; rfl, hsplit, ?_, ?_, ?_, ?_, rfl, rfl, by decide⟩
  · show decide (((idx % cols : Nat) : ℤ) = 0) = true ↔ idx % cols = 0
    rw [decide_eq_true_iff]
    exact Int.natCast_eq_zero
  · show decide (((idx % cols : Nat) : ℤ) = (usedCols : ℤ) - 1) = true ↔
      ((idx % cols : Nat) : ℤ) = (usedCols : ℤ) - 1
    exact decide_eq_true_iff
  · show decide (((idx / cols : Nat) : ℤ) = 0) = true ↔ idx / cols = 0
    rw [decide_eq_true_iff]
    exact Int.natCast_eq_zero
  · show decide (((idx / cols : Nat) : ℤ) = (usedRows : ℤ) - 1) = true ↔
      ((idx / cols : Nat) : ℤ) = (usedRows : ℤ) - 1
    exact decide_eq_true_iff

/-- An all-light raster binarizes to all-`false`, so the bounding-box
crop takes the early-return branch. -/
theorem cropDark_eq_none_of_allLight {img : List (List Nat)}
    (h : allLight img = true) : cropDark img = none := by
  have hany : (rowAny (binarize img)).any id = false := by
    rw [List.any_eq_false]
    intro x hx
    simp only [rowAny, List.mem_map] at hx
    obtain ⟨r, hr, rfl⟩ := hx
    simp only [binarize, List.mem_map] at hr
    obtain ⟨row, hrow, rfl⟩ := hr
    simp only [id_eq, Bool.not_eq_true, List.any_eq_false]
    intro b hb
    simp only [List.mem_map] at hb
    obtain ⟨p, hp, rfl⟩ := hb
    simp only [allLight, List.all_eq_true] at h
    have := h row hrow p hp
    simp only [decide_eq_true_eq] at this
    simp [Nat.not_lt_of_le this]
  simp [cropDark, hany]

/-- **C7** (confirmed): a raster with no dark pixel (every value at or
above the mid-luminance threshold 128) yields an empty primitive set
from the QR vectorizer — not an error — and the label cell's other
primitives (texts, divider polyline) are exactly those of a label with
no registered raster. -/
theorem blank_raster_empty_qr (img : List (List Nat)) (h : allLight img = true) :
    (∀ dxfX dxfY size : ℚ, drawQrFromImage img dxfX dxfY size = []) ∧
    (∀ (cfg : SheetConfig) (x y gridH : ℚ) (name : String),
      drawLabel cfg x y name gridH [(name, img)] = drawLabel cfg x y name gridH []) := by
  have hcrop := cropDark_eq_none_of_allLight h
  constructor
  · intro dxfX dxfY size
    simp [drawQrFromImage, hcrop]
  · intro cfg x y gridH name
    simp [drawLabel, dictGet, drawQrFromImage, hcrop]

/-- Witness for **C7** at a concrete all-white 2×2 raster. -/
theorem blank_raster_empty_qr_witness :
    allLight [[255, 255], [255, 255]] = true ∧
    drawQrFromImage [[255, 255], [255, 255]] 0 0 (23/2) = [] ∧
    drawLabel defaultConfig 0 0 "A" 20 [("A", [[255, 255], [255, 255]])] =
      drawLabel defaultConfig 0 0 "A" 20 [] :=
  ⟨by decide, (blank_raster_empty_qr _ (by decide)).1 0 0 (23/2),
    (blank_raster_empty_qr _ (by decide)).2 defaultConfig 0 0 20 "A"⟩

/-- Python slicing at natural bounds: `l[a:b] = (l.drop a).take (b - a)`. -/
theorem pySlice_natCast {α : Type} (l : List α) (a b : ℕ) :
    pySlice l (a : ℤ) (b : ℤ) = (l.drop a).take (b - a) := by
  unfold pySlice pySliceIdx
  rw [if_neg (by omega : ¬((a : ℤ) < 0)), if_neg (by omega : ¬((b : ℤ) < 0)),
    Int.toNat_natCast, Int.toNat_natCast]
  have htake : l.take (min b l.length) = l.take b := by
    rw [List.take_eq_take]
    omega
  rw [htake]
  rcases le_or_lt a l.length with hle | hlt
  · rw [min_eq_left hle, List.drop_take]
  · rw [min_eq_right hlt.le]
    have h1 : (l.take b).length ≤ l.length := by
      simp [List.length_take]
    rw [List.drop_eq_nil_of_le h1, List.drop_eq_nil_of_le hlt.le]
    simp


/-- **C2** (confirmed): for a positive configuration whose label fits the
canvas, `create_multi_page_dxf` succeeds with
`cols_per_page = ⌊canvas_w / label_w⌋` and
`rows_per_page = ⌊canvas_h / label_h⌋`; the number of pages is
`(len + cap - 1) / cap = ⌈len / cap⌉` for `cap = cols·rows` (so an empty
label list yields zero pages without error), and page `p` receives
exactly the contiguous slice `labels[p·cap : (p+1)·cap]` in input
order. -/
theorem createMultiPageDxf_pagination (cfg : SheetConfig) (labels : List String)
    (hW0 : 0 < cfg.labelW) (hWle : cfg.labelW ≤ cfg.canvasW)
    (hH0 : 0 < cfg.labelH) (hHle : cfg.labelH ≤ cfg.canvasH) :
    let cols := (Int.floor (cfg.canvasW / cfg.labelW)).toNat
    let rows := (Int.floor (cfg.canvasH / cfg.labelH)).toNat
    let cap := cols * rows
    ∃ ps : List (List String),
      createMultiPageDxf cfg labels = Except.ok ps ∧
      ps.length = (labels.length + cap - 1) / cap ∧
      (ps.length : ℤ) = Int.ceil ((labels.length : ℚ) / (cap : ℚ)) ∧
      (∀ p, p < ps.length → ps.getD p [] = (labels.drop (p * cap)).take cap) ∧
      (labels = [] → ps = []) := by
  intro cols rows cap
  have hWne : ¬(cfg.labelW = 0) := ne_of_gt hW0
  have hHne : ¬(cfg.labelH = 0) := ne_of_gt hH0
  have hcolsZ : (1 : ℤ) ≤ Int.floor (cfg.canvasW / cfg.labelW) := by
    rw [Int.le_floor]
    push_cast
    rw [le_div_iff₀ hW0]
    linarith
  have hrowsZ : (1 : ℤ) ≤ Int.floor (cfg.canvasH / cfg.labelH) := by
    rw [Int.le_floor]
    push_cast
    rw [le_div_iff₀ hH0]
    linarith
  have hcols : 1 ≤ cols := by
    show 1 ≤ (Int.floor (cfg.canvasW / cfg.labelW)).toNat
    omega
  have hrows : 1 ≤ rows := by
    show 1 ≤ (Int.floor (cfg.canvasH / cfg.labelH)).toNat
    omega
  have hcapPos : 0 < cap := Nat.mul_pos hcols hrows
  have hP : ((cap : ℕ) : ℤ) = Int.floor (cfg.canvasW / cfg.labelW) *
      Int.floor (cfg.canvasH / cfg.labelH) := by
    show (((Int.floor (cfg.canvasW / cfg.labelW)).toNat *
      (Int.floor (cfg.canvasH / cfg.labelH)).toNat : ℕ) : ℤ) = _
    push_cast
    rw [Int.toNat_of_nonneg (by omega), Int.toNat_of_nonneg (by omega)]
  have hppne : ¬(Int.floor (cfg.canvasW / cfg.labelW) *
      Int.floor (cfg.canvasH / cfg.labelH) = 0) := by
    rw [← hP]
    exact_mod_cast hcapPos.ne'
  have hres : createMultiPageDxf cfg labels =
      Except.ok ((List.range (Int.toNat (Int.fdiv ((labels.length : ℤ) +
          Int.floor (cfg.canvasW / cfg.labelW) * Int.floor (cfg.canvasH / cfg.labelH) - 1)
          (Int.floor (cfg.canvasW / cfg.labelW) * Int.floor (cfg.canvasH / cfg.labelH))))).map
        (fun (p : ℕ) => pySlice labels ((p : ℤ) * (Int.floor (cfg.canvasW / cfg.labelW) *
            Int.floor (cfg.canvasH / cfg.labelH)))
          (((p : ℤ) + 1) * (Int.floor (cfg.canvasW / cfg.labelW) *
            Int.floor (cfg.canvasH / cfg.labelH))))) := by
    unfold createMultiPageDxf
    rw [if_neg hWne, if_neg hHne]
    show (if Int.floor (cfg.canvasW / cfg.labelW) * Int.floor (cfg.canvasH / cfg.labelH) = 0
      then Except.error "ZeroDivisionError" else _) = _
    rw [if_neg hppne]
  have hN : (Int.toNat (Int.fdiv ((labels.length : ℤ) +
      Int.floor (cfg.canvasW / cfg.labelW) * Int.floor (cfg.canvasH / cfg.labelH) - 1)
      (Int.floor (cfg.canvasW / cfg.labelW) * Int.floor (cfg.canvasH / cfg.labelH)))) =
      (labels.length + cap - 1) / cap := by
    rw [← hP, Int.fdiv_eq_ediv _ (by exact_mod_cast hcapPos.le)]
    have hcast : ((labels.length : ℤ) + (cap : ℤ) - 1) = ((labels.length + cap - 1 : ℕ) : ℤ) := by
      push_cast [Nat.cast_sub (by omega : 1 ≤ labels.length + cap)]
      ring
    rw [hcast, ← Int.ofNat_ediv, Int.toNat_natCast]
  refine ⟨_, hres, ?_, ?_, ?_, ?_⟩
  · rw [List.length_map, List.length_range]
    exact hN
  · rw [List.length_map, List.length_range, hN]
    have hcapQ : (0 : ℚ) < (cap : ℚ) := by exact_mod_cast hcapPos
    rw [eq_comm, Int.ceil_eq_iff, Int.cast_natCast]
    constructor
    · rcases Nat.eq_zero_or_pos ((labels.length + cap - 1) / cap) with h0 | hpos
      · have hL : labels.length = 0 := by
          rcases Nat.eq_zero_or_pos labels.length with hz | hp
          · exact hz
          · exfalso
            have h1 : 1 ≤ (labels.length + cap - 1) / cap := by
              rw [Nat.le_div_iff_mul_le hcapPos]
              omega
            omega
        rw [h0, hL]
        push_cast
        simp [le_of_lt hcapQ]
      · have hL1 : 1 ≤ labels.length := by
          by_contra hc
          have hL0 : labels.length = 0 := by omega
          rw [hL0] at hpos
          have hz : (0 + cap - 1) / cap = 0 := Nat.div_eq_of_lt (by omega)
          omega
        rw [lt_div_iff₀ hcapQ]
        have hub : ((labels.length + cap - 1) / cap) * cap ≤ labels.length + cap - 1 :=
          Nat.div_mul_le_self _ _
        have hubQ : ((((labels.length + cap - 1) / cap) * cap : ℕ) : ℚ) ≤
            ((labels.length + cap - 1 : ℕ) : ℚ) := by exact_mod_cast hub
        push_cast [Nat.cast_sub (by omega : 1 ≤ labels.length + cap)] at hubQ
        linarith
    · rw [div_le_iff₀ hcapQ]
      have h1 : labels.length ≤ cap * ((labels.length + cap - 1) / cap) := by
        have h2 := le_smul_ceilDiv (a := cap) (b := labels.length) hcapPos
        rwa [smul_eq_mul, Nat.ceilDiv_eq_add_pred_div] at h2
      have h3 : labels.length ≤ ((labels.length + cap - 1) / cap) * cap := by
        rwa [Nat.mul_comm] at h1
      exact_mod_cast h3
  · intro p hp
    rw [List.length_map, List.length_range] at hp
    rw [List.getD_eq_getElem?_getD, List.getElem?_map, List.getElem?_range hp]
    have ha : ((p : ℤ) * (Int.floor (cfg.canvasW / cfg.labelW) *
        Int.floor (cfg.canvasH / cfg.labelH))) = ((p * cap : ℕ) : ℤ) := by
      rw [← hP]
      push_cast
      ring
    have hb : (((p : ℤ) + 1) * (Int.floor (cfg.canvasW / cfg.labelW) *
        Int.floor (cfg.canvasH / cfg.labelH))) = (((p + 1) * cap : ℕ) : ℤ) := by
      rw [← hP]
      push_cast
      ring
    have hsub : (p + 1) * cap - p * cap = cap := by
      rw [Nat.succ_mul]
      omega
    simp only [Option.map_some', Option.getD_some]
    rw [ha, hb, pySlice_natCast, hsub]
  · intro hnil
    have hlen0 : ((List.range (Int.toNat (Int.fdiv ((labels.length : ℤ) +
        Int.floor (cfg.canvasW / cfg.labelW) * Int.floor (cfg.canvasH / cfg.labelH) - 1)
        (Int.floor (cfg.canvasW / cfg.labelW) * Int.floor (cfg.canvasH / cfg.labelH))))).map
          (fun (p : ℕ) => pySlice labels ((p : ℤ) * (Int.floor (cfg.canvasW / cfg.labelW) *
              Int.floor (cfg.canvasH / cfg.labelH)))
            (((p : ℤ) + 1) * (Int.floor (cfg.canvasW / cfg.labelW) *
              Int.floor (cfg.canvasH / cfg.labelH))))).length = 0 := by
      rw [List.length_map, List.length_range, hN, hnil]
      simp
      exact Nat.div_eq_of_lt (by omega)
    exact List.length_eq_zero.mp hlen0

/-- Witness for **C2** at the spec's round-trip scenario: canvas
600×300 mm, label 65×20 mm, 140 labels — capacity 9·15 = 135, two pages
of 135 and 5 labels. -/
theorem createMultiPageDxf_pagination_witness :
    (Int.floor (defaultConfig.canvasW / defaultConfig.labelW)).toNat = 9 ∧
    (Int.floor (defaultConfig.canvasH / defaultConfig.labelH)).toNat = 15 ∧
    createMultiPageDxf defaultConfig (List.replicate 140 "L") =
      Except.ok [List.replicate 135 "L", List.replicate 5 "L"] ∧
    (let cols := (Int.floor (defaultConfig.canvasW / defaultConfig.labelW)).toNat
     let rows := (Int.floor (defaultConfig.canvasH / defaultConfig.labelH)).toNat
     let cap := cols * rows
     ∃ ps : List (List String),
       createMultiPageDxf defaultConfig (List.replicate 140 "L") = Except.ok ps ∧
       ps.length = ((List.replicate 140 "L").length + cap - 1) / cap ∧
       (ps.length : ℤ) = Int.ceil (((List.replicate 140 "L").length : ℚ) / (cap : ℚ)) ∧
       (∀ p, p < ps.length →
         ps.getD p [] = ((List.replicate 140 "L").drop (p * cap)).take cap) ∧
       (List.replicate 140 "L" = ([] : List String) → ps = [])) := by
  have hfW : Int.floor (defaultConfig.canvasW / defaultConfig.labelW) = 9 := by
    norm_num [defaultConfig]
  have hfH : Int.floor (defaultConfig.canvasH / defaultConfig.labelH) = 15 := by
    norm_num [defaultConfig]
  have hWne : ¬(defaultConfig.labelW = 0) := by norm_num [defaultConfig]
  have hHne : ¬(defaultConfig.labelH = 0) := by norm_num [defaultConfig]
  refine ⟨by rw [hfW]; rfl, by rw [hfH]; rfl, ?_, ?_⟩
  · simp only [createMultiPageDxf, if_neg hWne, if_neg hHne, hfW, hfH]
    rfl
  · exact createMultiPageDxf_pagination defaultConfig (List.replicate 140 "L")
      (by norm_num [defaultConfig]) (by norm_num [defaultConfig])
      (by norm_num [defaultConfig]) (by norm_num [defaultConfig])

/-- If `p` holds at index `i`, the first index satisfying `p` is at most
`i`. -/
theorem findIdx_le_of_getElem {α : Type} {p : α → Bool} {l : List α} {i : Nat}
    (hi : i < l.length) (hp : p l[i] = true) : l.findIdx p ≤ i := by
  by_contra hc
  push_neg at hc
  have h2 := List.not_of_lt_findIdx hc
  rw [h2] at hp
  cases hp

/-- Binarizing preserves the grid width. -/
theorem gWidth_binarize (img : List (List Nat)) : gWidth (binarize img) = gWidth img := by
  cases img with
  | nil => rfl
  | cons a l => simp [gWidth, binarize]

/-- Binarizing preserves rectangularity: every row keeps the grid width. -/
theorem length_row_binarize {img : List (List Nat)} (hrect : Rect img) {row : List Bool}
    (h : row ∈ binarize img) : row.length = gWidth (binarize img) := by
  simp only [binarize, List.mem_map] at h
  obtain ⟨r, hr, rfl⟩ := h
  rw [List.length_map, gWidth_binarize]
  exact hrect r hr

/-- On a rectangular raster with a dark pixel, the bounding-box crop
succeeds and is nonempty in both dimensions. -/
theorem cropDark_pos {img : List (List Nat)} (hrect : Rect img) (hd : hasDark img = true) :
    ∃ qr, cropDark img = some qr ∧ 1 ≤ qr.length ∧ 1 ≤ gWidth qr := by
  have hany : (rowAny (binarize img)).any id = true := hd
  obtain ⟨x0, hx0, hx0t⟩ := List.any_eq_true.mp hany
  have hlenrows : (rowAny (binarize img)).length = (binarize img).length := List.length_map _ _
  have hr0 : firstTrue (rowAny (binarize img)) < (rowAny (binarize img)).length := by
    rw [firstTrue, List.findIdx_lt_length]
    exact ⟨x0, hx0, hx0t⟩
  have hrev : (rowAny (binarize img)).reverse.findIdx id <
      (rowAny (binarize img)).reverse.length := by
    rw [List.findIdx_lt_length]
    exact ⟨x0, List.mem_reverse.mpr hx0, hx0t⟩
  have hlenrev : (rowAny (binarize img)).reverse.length = (rowAny (binarize img)).length :=
    List.length_reverse _
  have hr1lt : lastTrue (rowAny (binarize img)) < (rowAny (binarize img)).length := by
    rw [lastTrue]
    omega
  have hr1true : (rowAny (binarize img))[lastTrue (rowAny (binarize img))] = true := by
    have h1 : id ((rowAny (binarize img)).reverse[(rowAny (binarize img)).reverse.findIdx id]) =
        true := List.findIdx_getElem
    rw [List.getElem_reverse] at h1
    simpa [lastTrue] using h1
  have hr0le : firstTrue (rowAny (binarize img)) ≤ lastTrue (rowAny (binarize img)) :=
    findIdx_le_of_getElem hr1lt (by simpa using hr1true)
  -- columns
  have hlencols : (colAny (binarize img)).length = gWidth (binarize img) := by
    simp [colAny]
  have hcolany : (colAny (binarize img)).any id = true := by
    obtain ⟨x, hx, hxt⟩ := List.any_eq_true.mp hany
    simp only [rowAny, List.mem_map] at hx
    obtain ⟨row, hrow, rfl⟩ := hx
    have hrowany : row.any id = true := by simpa using hxt
    obtain ⟨b, hb, hbt⟩ := List.any_eq_true.mp hrowany
    obtain ⟨j, hj, rfl⟩ := List.getElem_of_mem hb
    have hjW : j < gWidth (binarize img) := by
      have := length_row_binarize hrect hrow
      omega
    have hjc : j < (colAny (binarize img)).length := by omega
    rw [List.any_eq_true]
    refine ⟨(colAny (binarize img))[j], List.getElem_mem hjc, ?_⟩
    have hcj : (colAny (binarize img))[j] = (binarize img).any (fun r => r.getD j false) := by
      simp [colAny]
    simp only [id_eq, hcj]
    rw [List.any_eq_true]
    refine ⟨row, hrow, ?_⟩
    rw [List.getD_eq_getElem _ _ hj]
    simpa using hbt
  obtain ⟨y0, hy0, hy0t⟩ := List.any_eq_true.mp hcolany
  have hc0 : firstTrue (colAny (binarize img)) < (colAny (binarize img)).length := by
    rw [firstTrue, List.findIdx_lt_length]
    exact ⟨y0, hy0, hy0t⟩
  have hcrev : (colAny (binarize img)).reverse.findIdx id <
      (colAny (binarize img)).reverse.length := by
    rw [List.findIdx_lt_length]
    exact ⟨y0, List.mem_reverse.mpr hy0, hy0t⟩
  have hclenrev : (colAny (binarize img)).reverse.length = (colAny (binarize img)).length :=
    List.length_reverse _
  have hc1lt : lastTrue (colAny (binarize img)) < (colAny (binarize img)).length := by
    rw [lastTrue]
    omega
  have hc1true : (colAny (binarize img))[lastTrue (colAny (binarize img))] = true := by
    have h1 : id ((colAny (binarize img)).reverse[(colAny (binarize img)).reverse.findIdx id]) =
        true := List.findIdx_getElem
    rw [List.getElem_reverse] at h1
    simpa [lastTrue] using h1
  have hc0le : firstTrue (colAny (binarize img)) ≤ lastTrue (colAny (binarize img)) :=
    findIdx_le_of_getElem hc1lt (by simpa using hc1true)
  -- assemble
  have hres : cropDark img = some ((((binarize img).take (lastTrue (rowAny (binarize img)) + 1)).drop
      (firstTrue (rowAny (binarize img)))).map
      (fun row => (row.take (lastTrue (colAny (binarize img)) + 1)).drop
        (firstTrue (colAny (binarize img))))) := by
    simp only [cropDark, hany, if_true]
  refine ⟨_, hres, ?_, ?_⟩
  · rw [List.length_map, List.length_drop, List.length_take]
    omega
  · have hAlen : 0 < (((binarize img).take (lastTrue (rowAny (binarize img)) + 1)).drop
        (firstTrue (rowAny (binarize img)))).length := by
      rw [List.length_drop, List.length_take]
      omega
    have hA0 : (((binarize img).take (lastTrue (rowAny (binarize img)) + 1)).drop
        (firstTrue (rowAny (binarize img))))[0] = (binarize img)[firstTrue (rowAny (binarize img))] := by
      rw [List.getElem_drop, List.getElem_take]
      simp
    have hr0g : firstTrue (rowAny (binarize img)) < (binarize img).length := by omega
    have hlen0 : ((binarize img)[firstTrue (rowAny (binarize img))]).length =
        gWidth (binarize img) :=
      length_row_binarize hrect (List.getElem_mem hr0g)
    show 1 ≤ gWidth ((((binarize img).take (lastTrue (rowAny (binarize img)) + 1)).drop
      (firstTrue (rowAny (binarize img)))).map
      (fun row => (row.take (lastTrue (colAny (binarize img)) + 1)).drop
        (firstTrue (colAny (binarize img)))))
    rw [gWidth, List.head?_map, List.head?_eq_getElem?, List.getElem?_eq_getElem hAlen]
    simp only [Option.map_some', Option.getD_some, hA0]
    rw [List.length_drop, List.length_take]
    omega

/-- The clamp `max 21 (min n 177)` never goes below 21. -/
theorem moduleCountOf_ge (qr : List (List Bool)) : 21 ≤ moduleCountOf qr := by
  simp only [moduleCountOf]
  exact le_max_left _ _

/-- The clamp `max 21 (min n 177)` never exceeds 177. -/
theorem moduleCountOf_le (qr : List (List Bool)) : moduleCountOf qr ≤ 177 := by
  simp only [moduleCountOf]
  exact max_le (by norm_num) (min_le_right _ _)

/-- The module pixel size estimate is clamped to at least 1. -/
theorem estimatePx_pos (qr : List (List Bool)) : 1 ≤ estimatePx qr := by
  simp only [estimatePx]
  exact le_max_left _ _

/-- **C9** (confirmed): on any rectangular raster with a dark pixel,
vectorization is total and in-bounds — the crop is nonempty, the module
pixel size `px` is at least 1 (so `w/px` and `h/px` are defined), the
clamped module count lies in `[21, 177]`, and every module-center
sample index `min(int((c+0.5)·w/n), w-1)` (and the row analogue) is a
valid index of the cropped raster. -/
theorem qr_sampling_safe (img : List (List Nat)) (hrect : Rect img)
    (hd : hasDark img = true) :
    ∃ qr, cropDark img = some qr ∧ 1 ≤ qr.length ∧ 1 ≤ gWidth qr ∧
      1 ≤ estimatePx qr ∧ 21 ≤ moduleCountOf qr ∧ moduleCountOf qr ≤ 177 ∧
      (∀ r, r < moduleCountOf qr → sampleIy qr r < qr.length) ∧
      (∀ c, c < moduleCountOf qr → sampleIx qr c < gWidth qr) := by
  obtain ⟨qr, hcrop, hh, hw⟩ := cropDark_pos hrect hd
  refine ⟨qr, hcrop, hh, hw, estimatePx_pos qr, moduleCountOf_ge qr, moduleCountOf_le qr, ?_, ?_⟩
  · intro r hr
    have h1 : sampleIy qr r ≤ qr.length - 1 := by
      simp only [sampleIy]
      exact min_le_right _ _
    omega
  · intro c hc
    have h1 : sampleIx qr c ≤ gWidth qr - 1 := by
      simp only [sampleIx]
      exact min_le_right _ _
    omega

/-- Witness for **C9** at the concrete 2×42 raster `cxRaster`. -/
theorem qr_sampling_safe_witness :
    Rect cxRaster ∧ hasDark cxRaster = true ∧
    (∃ qr, cropDark cxRaster = some qr ∧ 1 ≤ qr.length ∧ 1 ≤ gWidth qr ∧
      1 ≤ estimatePx qr ∧ 21 ≤ moduleCountOf qr ∧ moduleCountOf qr ≤ 177 ∧
      (∀ r, r < moduleCountOf qr → sampleIy qr r < qr.length) ∧
      (∀ c, c < moduleCountOf qr → sampleIx qr c < gWidth qr)) :=
  ⟨by decide, by decide, qr_sampling_safe cxRaster (by decide) (by decide)⟩

/-- **C8** (confirmed): the vertical flip `sheet_y = grid_h - content_y`
is applied consistently, so the centroid of every QR filled square
emitted for a label, after applying the inverse flip, lies inside the
label cell's declared QR offset rectangle — the `size × size` region at
offsets `(qr_x_offset, qr_y_offset)` from the cell origin `(x, y)` in
content coordinates. -/
theorem qr_centroid_in_rect (cfg : SheetConfig) (x y gridH : ℚ) (name : String)
    (imgs : List (String × List (List Nat))) (hs : 0 < cfg.qrSize)
    (pts : List (ℚ × ℚ)) (layer : String)
    (hmem : Primitive.poly pts layer ∈ drawLabel cfg x y name gridH imgs) :
    x + cfg.qrXOff ≤ (centroid pts).1 ∧
    (centroid pts).1 ≤ x + cfg.qrXOff + cfg.qrSize ∧
    y + cfg.qrYOff ≤ gridH - (centroid pts).2 ∧
    gridH - (centroid pts).2 ≤ y + cfg.qrYOff + cfg.qrSize := by
  simp only [drawLabel, List.mem_append, List.mem_map, List.mem_singleton] at hmem
  rcases hmem with (hmem | hmem) | hmem
  · obtain ⟨t, _, heq⟩ := hmem
    simp at heq
  · simp at hmem
  · rcases hq : dictGet imgs name with _ | img
    · rw [hq] at hmem
      simp at hmem
    · rw [hq] at hmem
      simp only [drawQrFromImage] at hmem
      rcases hcrop : cropDark img with _ | qr
      · rw [hcrop] at hmem
        simp at hmem
      · rw [hcrop] at hmem
        obtain ⟨r, c, hr, hc, heq⟩ := exists_of_mem_qrSquares hmem
        have hn21 : 21 ≤ moduleCountOf qr := moduleCountOf_ge qr
        set n := moduleCountOf qr with hn
        simp only [moduleSquare] at heq
        set mm := cfg.qrSize / (n : ℚ) with hmmdef
        set mx := (x + cfg.qrXOff) + (c : ℚ) * mm with hmx
        set my := (gridH - (y + cfg.qrYOff + cfg.qrSize)) + ((n - 1 - r : ℕ) : ℚ) * mm with hmy
        injection heq with hpts hlayer
        subst hpts
        have hnQ : (0 : ℚ) < (n : ℚ) := by
          exact_mod_cast Nat.lt_of_lt_of_le (by norm_num) hn21
        have hmm : (0 : ℚ) < mm := by
          rw [hmmdef]
          exact div_pos hs hnQ
        have hnm : (n : ℚ) * mm = cfg.qrSize := by
          rw [hmmdef]
          field_simp
        have hcen : centroid [(mx, my), (mx + mm, my), (mx + mm, my + mm), (mx, my + mm)] =
            (mx + mm / 2, my + mm / 2) := by
          simp only [centroid, List.map_cons, List.map_nil, List.sum_cons, List.sum_nil,
            List.length_cons, List.length_nil]
          norm_num
          constructor <;> ring
        rw [hcen]
        have hcQ : (c : ℚ) + 1/2 ≤ (n : ℚ) := by
          have h1 : (c : ℚ) + 1 ≤ (n : ℚ) := by exact_mod_cast hc
          linarith
        have hkQ : ((n - 1 - r : ℕ) : ℚ) + 1/2 ≤ (n : ℚ) := by
          have hkN : (n - 1 - r : ℕ) ≤ n - 1 := by omega
          have h1 : ((n - 1 - r : ℕ) : ℚ) ≤ ((n - 1 : ℕ) : ℚ) := by exact_mod_cast hkN
          have h2 : ((n - 1 : ℕ) : ℚ) = (n : ℚ) - 1 := by
            push_cast [Nat.cast_sub (by omega : 1 ≤ n)]
            ring
          linarith
        have hcmul : ((c : ℚ) + 1/2) * mm ≤ cfg.qrSize := by
          have h3 := mul_le_mul_of_nonneg_right hcQ hmm.le
          rw [hnm] at h3
          linarith
        have hcmul0 : 0 ≤ ((c : ℚ) + 1/2) * mm := by
          apply mul_nonneg _ hmm.le
          have h0 : (0 : ℚ) ≤ (c : ℚ) := Nat.cast_nonneg c
          linarith
        have hkmul : (((n - 1 - r : ℕ) : ℚ) + 1/2) * mm ≤ cfg.qrSize := by
          have h3 := mul_le_mul_of_nonneg_right hkQ hmm.le
          rw [hnm] at h3
          linarith
        have hkmul0 : 0 ≤ (((n - 1 - r : ℕ) : ℚ) + 1/2) * mm := by
          apply mul_nonneg _ hmm.le
          have h0 : (0 : ℚ) ≤ ((n - 1 - r : ℕ) : ℚ) := Nat.cast_nonneg _
          linarith
        have hmx2 : mx + mm / 2 = (x + cfg.qrXOff) + (((c : ℚ) + 1/2) * mm) := by
          rw [hmx]
          ring
        have hmy2 : my + mm / 2 =
            (gridH - (y + cfg.qrYOff + cfg.qrSize)) + ((((n - 1 - r : ℕ) : ℚ) + 1/2) * mm) := by
          rw [hmy]
          ring
        refine ⟨?_, ?_, ?_, ?_⟩
        · show x + cfg.qrXOff ≤ (mx + mm / 2, my + mm / 2).1
          simp only
          rw [hmx2]
          linarith
        · show (mx + mm / 2, my + mm / 2).1 ≤ x + cfg.qrXOff + cfg.qrSize
          simp only
          rw [hmx2]
          linarith
        · show y + cfg.qrYOff ≤ gridH - (mx + mm / 2, my + mm / 2).2
          simp only
          rw [hmy2]
          linarith
        · show gridH - (mx + mm / 2, my + mm / 2).2 ≤ y + cfg.qrYOff + cfg.qrSize
          simp only
          rw [hmy2]
          linarith

/-- A primitive of the QR squares belongs to the full label emission. -/
theorem drawLabel_qr_append (cfg : SheetConfig) (x y : ℚ) (name : String) (gridH : ℚ)
    (imgs : List (String × List (List Nat))) (img : List (List Nat))
    (hdict : dictGet imgs name = some img) {p : Primitive}
    (hp : p ∈ drawQrFromImage img (x + cfg.qrXOff) (gridH - (y + cfg.qrYOff + cfg.qrSize))
      cfg.qrSize) :
    p ∈ drawLabel cfg x y name gridH imgs := by
  simp only [drawLabel, hdict]
  exact List.mem_append.mpr (Or.inr hp)

/-- Witness for **C8** at a concrete label: cell origin `(0, 0)`,
grid height 20, default configuration, raster `c8img`. -/
theorem qr_centroid_in_rect_witness :
    (0 : ℚ) < defaultConfig.qrSize ∧
    Primitive.poly c8pts "QR" ∈ drawLabel defaultConfig 0 0 "A" 20 [("A", c8img)] ∧
    (0 + defaultConfig.qrXOff ≤ (centroid c8pts).1 ∧
     (centroid c8pts).1 ≤ 0 + defaultConfig.qrXOff + defaultConfig.qrSize ∧
     0 + defaultConfig.qrYOff ≤ 20 - (centroid c8pts).2 ∧
     20 - (centroid c8pts).2 ≤ 0 + defaultConfig.qrYOff + defaultConfig.qrSize) := by
  have hs : (0 : ℚ) < defaultConfig.qrSize := by norm_num [defaultConfig]
  have hdict : dictGet [("A", c8img)] "A" = some c8img := by decide
  have hcrop : cropDark c8img = some c8qr := by decide
  have hn : moduleCountOf c8qr = 21 := by decide
  have hguard : (c8qr.getD (sampleIy c8qr 0) []).getD (sampleIx c8qr 0) false = true := by decide
  have hsq : moduleSquare 49 (11/2) (23/2) (moduleCountOf c8qr) 0 0 =
      Primitive.poly c8pts "QR" := by
    rw [hn]
    simp only [moduleSquare, c8pts, Primitive.poly.injEq]
    norm_num
  have hmemq : Primitive.poly c8pts "QR" ∈ qrSquares c8qr 49 (11/2) (23/2) := by
    rw [← hsq]
    simp only [qrSquares]
    refine List.mem_flatMap.mpr ⟨0, ?_, ?_⟩
    · rw [hn]
      decide
    · refine List.mem_filterMap.mpr ⟨0, ?_, ?_⟩
      · rw [hn]
        decide
      · rw [if_pos hguard]
  have hdq : drawQrFromImage c8img 49 (11/2) (23/2) = qrSquares c8qr 49 (11/2) (23/2) := by
    simp only [drawQrFromImage, hcrop]
  have harg1 : (0 : ℚ) + defaultConfig.qrXOff = 49 := by norm_num [defaultConfig]
  have harg2 : (20 : ℚ) - (0 + defaultConfig.qrYOff + defaultConfig.qrSize) = 11/2 := by
    norm_num [defaultConfig]
  have hp : Primitive.poly c8pts "QR" ∈ drawQrFromImage c8img (0 + defaultConfig.qrXOff)
      (20 - (0 + defaultConfig.qrYOff + defaultConfig.qrSize)) defaultConfig.qrSize := by
    rw [harg1, harg2]
    have hqs : defaultConfig.qrSize = 23/2 := rfl
    rw [hqs, hdq]
    exact hmemq
  have hmem : Primitive.poly c8pts "QR" ∈ drawLabel defaultConfig 0 0 "A" 20 [("A", c8img)] :=
    drawLabel_qr_append defaultConfig 0 0 "A" 20 [("A", c8img)] c8img hdict hp
  exact ⟨hs, hmem, qr_centroid_in_rect defaultConfig 0 0 20 "A" [("A", c8img)] hs c8pts "QR" hmem⟩

/-- A successful split point starts a literal `_x` tail. -/
theorem okAt_head (t : List Char) (i : Nat) (h : okAt t i = true) :
    ∃ rest, t.drop i = '_' :: 'x' :: rest := by
  simp only [okAt, Bool.and_eq_true, beq_iff_eq, decide_eq_true_eq] at h
  obtain ⟨⟨⟨h1, h2⟩, h3⟩, h4⟩ := h
  cases hd : t.drop i with
  | nil =>
    rw [hd] at h2
    simp at h2
  | cons a l =>
    cases l with
    | nil =>
      rw [hd] at h2
      simp at h2
    | cons b l2 =>
      rw [hd] at h2
      simp only [List.take, List.cons.injEq] at h2
      obtain ⟨ha, hb, _⟩ := h2
      subst ha
      subst hb
      exact ⟨l2, rfl⟩

/-- No valid split point lies strictly beyond the last `_x` of a stem
`base ++ "_x" ++ digits`: every later character is `x` or a digit,
never `_`. -/
theorem okAt_false_above (B N : List Char) (hN2 : N.all Char.isDigit = true)
    (i : Nat) (hi : B.length < i) : okAt (B ++ '_' :: 'x' :: N) i = false := by
  by_contra hc
  rw [Bool.not_eq_false] at hc
  obtain ⟨rest, hrest⟩ := okAt_head _ _ hc
  have hassoc : B ++ '_' :: 'x' :: N = (B ++ ['_']) ++ 'x' :: N := by
    simp
  have hlen : (B ++ ['_']).length = B.length + 1 := by
    simp
  have hsplit : (B ++ '_' :: 'x' :: N).drop i = ('x' :: N).drop (i - (B.length + 1)) := by
    rw [hassoc, List.drop_append_eq_append_drop, hlen,
      List.drop_eq_nil_of_le (by omega), List.nil_append]
  have hmem : '_' ∈ ('x' :: N).drop (i - (B.length + 1)) := by
    rw [← hsplit, hrest]
    exact List.mem_cons_self _ _
  have hmem2 : '_' ∈ 'x' :: N := List.drop_subset _ _ hmem
  rcases List.mem_cons.mp hmem2 with h | h
  · exact absurd h (by decide)
  · have := List.all_eq_true.mp hN2 _ h
    simp at this

/-- The downward scan finds `p` when `p` is valid and everything above
`p` fails. -/
theorem findSplitFrom_eq {t : List Char} {p : Nat} (hp : okAt t p = true)
    (habove : ∀ i, p < i → okAt t i = false) :
    ∀ m, p < m → findSplitFrom t m = some p := by
  intro m
  induction m with
  | zero => omega
  | succ k ih =>
    intro hpk
    by_cases hk : p = k
    · subst hk
      simp [findSplitFrom, hp]
    · have hklt : p < k := by omega
      simp [findSplitFrom, habove k hklt, ih hklt]

/-- The greedy regex strips only the final `_x<digits>` suffix. -/
theorem qtyMatch_greedy (B N : List Char) (hB : 1 ≤ B.length) (hN1 : N ≠ [])
    (hN2 : N.all Char.isDigit = true) :
    qtyMatch (B ++ '_' :: 'x' :: N) = some (B, digitsVal N) := by
  have hd1 : (B ++ '_' :: 'x' :: N).drop B.length = '_' :: 'x' :: N := List.drop_left B _
  have hassoc2 : B ++ '_' :: 'x' :: N = (B ++ ['_', 'x']) ++ N := by
    simp
  have hlen2 : (B ++ ['_', 'x']).length = B.length + 2 := by
    simp
  have hd2 : (B ++ '_' :: 'x' :: N).drop (B.length + 2) = N := by
    rw [hassoc2, ← hlen2, List.drop_left]
  have hok : okAt (B ++ '_' :: 'x' :: N) B.length = true := by
    simp only [okAt, hd1, hd2, Bool.and_eq_true, beq_iff_eq, decide_eq_true_eq]
    refine ⟨⟨⟨hB, by simp [List.take]⟩, ?_⟩, hN2⟩
    cases N with
    | nil => exact absurd rfl hN1
    | cons a l => rfl
  have hfind : findSplitFrom (B ++ '_' :: 'x' :: N) (B ++ '_' :: 'x' :: N).length = some B.length :=
    findSplitFrom_eq hok (okAt_false_above B N hN2) _ (by simp)
  unfold qtyMatch
  rw [hfind]
  show some ((B ++ '_' :: 'x' :: N).take B.length,
    digitsVal ((B ++ '_' :: 'x' :: N).drop (B.length + 2))) = some (B, digitsVal N)
  rw [List.take_left, hd2]

/-- **C10** (confirmed): because the base capture of `^(.+)_x(\d+)$` is
greedy, a stem `<s>_x<M>_x<N>` (M, N digit strings, N nonempty) strips
only the final suffix: the match yields base `<s>_x<M>` and quantity
`N`, so normalization appends `<s>_x<M>` `N` times and registers the
raster under `<s>_x<M>` — the inner `_x<M>` stays literal text. -/
theorem greedy_suffix_strip {α : Type} (s M N : List Char) (d : α)
    (hM : M.all Char.isDigit = true) (hN1 : N ≠ []) (hN2 : N.all Char.isDigit = true) :
    qtyMatch ((s ++ '_' :: 'x' :: M) ++ '_' :: 'x' :: N) =
      some (s ++ '_' :: 'x' :: M, digitsVal N) ∧
    parseUploadedFiles [(String.mk ((s ++ '_' :: 'x' :: M) ++ '_' :: 'x' :: N), d)] =
      (List.replicate (digitsVal N) (String.mk (s ++ '_' :: 'x' :: M)),
       [(String.mk (s ++ '_' :: 'x' :: M), d)]) := by
  have hB : 1 ≤ (s ++ '_' :: 'x' :: M).length := by
    simp
    omega
  have hq := qtyMatch_greedy (s ++ '_' :: 'x' :: M) N hB hN1 hN2
  refine ⟨hq, ?_⟩
  show parseStep ([], []) (String.mk ((s ++ '_' :: 'x' :: M) ++ '_' :: 'x' :: N), d) = _
  unfold parseStep
  have hdata : (String.mk ((s ++ '_' :: 'x' :: M) ++ '_' :: 'x' :: N)).data =
      (s ++ '_' :: 'x' :: M) ++ '_' :: 'x' :: N := rfl
  rw [hdata, hq]
  rfl

/-- Witness for **C10** at the concrete stem `s_x3_x4`: base `s_x3`
repeated 4 times. -/
theorem greedy_suffix_strip_witness :
    qtyMatch ((['s'] ++ '_' :: 'x' :: ['3']) ++ '_' :: 'x' :: ['4']) =
      some (['s'] ++ '_' :: 'x' :: ['3'], digitsVal ['4']) ∧
    parseUploadedFiles [(String.mk ((['s'] ++ '_' :: 'x' :: ['3']) ++ '_' :: 'x' :: ['4']),
        (0 : Nat))] =
      (List.replicate (digitsVal ['4']) (String.mk (['s'] ++ '_' :: 'x' :: ['3'])),
       [(String.mk (['s'] ++ '_' :: 'x' :: ['3']), 0)]) :=
  greedy_suffix_strip ['s'] ['3'] ['4'] 0 (by decide) (by decide) (by decide)

instance keyLeTotal (α : Type) : IsTotal (String × α) (fun a b => a.1 ≤ b.1) :=
  ⟨fun a b => le_total a.1 b.1⟩

instance keyLeTrans (α : Type) : IsTrans (String × α) (fun a b => a.1 ≤ b.1) :=
  ⟨fun _ _ _ => le_trans⟩

instance keyLtAntisymm (α : Type) : IsAntisymm (String × α) (fun a b => a.1 < b.1) :=
  ⟨fun _ _ h1 h2 => absurd h2 (lt_asymm h1)⟩

/-- Two pairwise properties combine pointwise. -/
theorem pairwise_and {α : Type} {R S : α → α → Prop} {l : List α}
    (h1 : l.Pairwise R) (h2 : l.Pairwise S) :
    l.Pairwise (fun a b => R a b ∧ S a b) := by
  induction l with
  | nil => exact List.Pairwise.nil
  | cons a l ih =>
    rw [List.pairwise_cons] at h1 h2 ⊢
    exact ⟨fun b hb => ⟨h1.1 b hb, h2.1 b hb⟩, ih h1.2 h2.2⟩

/-- `getLast?` of a cons, in `Option.or` form. -/
theorem getLast?_cons_or {α : Type} (a : α) (l : List α) :
    (a :: l).getLast? = l.getLast?.or (some a) := by
  cases l with
  | nil => rfl
  | cons b t =>
    rw [List.getLast?_cons_cons]
    cases h : (b :: t).getLast? with
    | none => exact absurd (List.getLast?_eq_none_iff.mp h) (by simp)
    | some x => rfl

/-- `find?` over a dict updated in place at key `k`. -/
theorem find_set_map {α : Type} (d : List (String × α)) (k k2 : String) (v : α) :
    List.find? (fun e => e.1 == k2) (d.map (fun e => if e.1 == k then (k, v) else e)) =
      if k2 = k then (if d.any (fun e => e.1 == k) then some (k, v) else none)
      else List.find? (fun e => e.1 == k2) d := by
  induction d with
  | nil =>
    by_cases hk : k2 = k <;> simp [hk]
  | cons a d ih =>
    by_cases ha : a.1 = k
    · by_cases hk : k2 = k
      · subst hk
        simp [List.find?_cons, List.any_cons, ha]
      · have hkk : ¬(k = k2) := fun h => hk h.symm
        have hak2 : ¬(a.1 = k2) := by
          rw [ha]
          exact hkk
        simp [List.find?_cons, List.any_cons, ha, hk, hkk, hak2, -List.find?_map]
        simpa [hk] using ih
    · by_cases hk2 : a.1 = k2
      · have hkk : ¬(k2 = k) := fun h => ha (by rw [hk2, h])
        simp [List.find?_cons, List.any_cons, ha, hk2, hkk]
      · by_cases hk : k2 = k
        · subst hk
          have hb : (a.1 == k2) = false := by simp [ha]
          simp [List.find?_cons, List.any_cons, ha, hb, hk2, -List.find?_map]
          simp only [hb, Bool.false_or]
          simpa using ih
        · simp [List.find?_cons, List.any_cons, ha, hk2, hk, -List.find?_map]
          simpa [hk] using ih

/-- `dictGet` after a Python dict assignment: the assigned key reads the
new value, all other keys are unchanged. -/
theorem dictGet_dictSet {α : Type} (d : List (String × α)) (k k2 : String) (v : α) :
    dictGet (dictSet d k v) k2 = if k2 = k then some v else dictGet d k2 := by
  unfold dictGet dictSet
  by_cases hmem : d.any (fun e => e.1 == k) = true
  · rw [if_pos hmem, find_set_map]
    by_cases hk : k2 = k
    · rw [if_pos hk, if_pos hk, if_pos hmem]
      rfl
    · rw [if_neg hk, if_neg hk]
  · rw [if_neg hmem, List.find?_append]
    have hanyf : d.any (fun e => e.1 == k) = false := by
      cases h : d.any (fun e => e.1 == k)
      · rfl
      · exact absurd h hmem
    by_cases hk : k2 = k
    · subst hk
      have hnone : List.find? (fun e => e.1 == k2) d = none := by
        rw [List.find?_eq_none]
        intro x hx hpx
        exact (List.any_eq_false.mp hanyf x hx) hpx
      rw [hnone, Option.none_or]
      simp [List.find?]
    · have hone : List.find? (fun e => e.1 == k2) [(k, v)] = none := by
        simp only [List.find?]
        have : ((k, v).1 == k2) = false := by
          simp only [beq_eq_false_iff_ne]
          exact fun h => hk h.symm
        rw [this]
      rw [hone, Option.or_none, if_neg hk]

/-- The label component of the parsing fold: each entry appends its
expansion. -/
theorem foldl_parseStep_fst {α : Type} (L : List (String × α)) :
    ∀ acc : List String × List (String × α),
      (L.foldl parseStep acc).1 = acc.1 ++ L.flatMap (fun e => expandStem e.1) := by
  induction L with
  | nil =>
    intro acc
    simp
  | cons e L ih =>
    intro acc
    rw [List.foldl_cons, ih, List.flatMap_cons]
    have hstep : (parseStep acc e).1 = acc.1 ++ expandStem e.1 := by
      rcases hq : qtyMatch e.1.data with _ | ⟨base, qty⟩
      · unfold parseStep expandStem
        rw [hq]
      · unfold parseStep expandStem
        rw [hq]
    rw [hstep, List.append_assoc]

/-- The registry component of the parsing fold: a key reads the payload
of the last entry (in processing order) whose normalized base is that
key, falling back to the accumulator. -/
theorem foldl_parseStep_snd {α : Type} (L : List (String × α)) (b : String) :
    ∀ acc : List String × List (String × α),
      dictGet (L.foldl parseStep acc).2 b =
        ((L.filter (fun e => baseOf e.1 == b)).getLast?.map Prod.snd).or (dictGet acc.2 b) := by
  induction L with
  | nil =>
    intro acc
    simp [Option.none_or]
  | cons e L ih =>
    intro acc
    rw [List.foldl_cons, ih]
    have hstep : dictGet (parseStep acc e).2 b =
        if baseOf e.1 = b then some e.2 else dictGet acc.2 b := by
      rcases hq : qtyMatch e.1.data with _ | ⟨base, qty⟩
      · unfold parseStep baseOf
        rw [hq]
        show dictGet (dictSet acc.2 e.1 e.2) b = _
        rw [dictGet_dictSet]
        by_cases h : b = e.1
        · rw [if_pos h, if_pos h.symm]
        · rw [if_neg h, if_neg (fun hh => h hh.symm)]
      · unfold parseStep baseOf
        rw [hq]
        show dictGet (dictSet acc.2 (String.mk base) e.2) b = _
        rw [dictGet_dictSet]
        by_cases h : b = String.mk base
        · rw [if_pos h, if_pos h.symm]
        · rw [if_neg h, if_neg (fun hh => h hh.symm)]
    rw [hstep]
    by_cases hPe : baseOf e.1 = b
    · rw [if_pos hPe]
      have hfe : (e :: L).filter (fun e2 => baseOf e2.1 == b) =
          e :: L.filter (fun e2 => baseOf e2.1 == b) := by
        rw [List.filter_cons, if_pos (by simp [hPe])]
      rw [hfe, getLast?_cons_or]
      cases hF : (L.filter (fun e2 => baseOf e2.1 == b)).getLast? with
      | none => simp [Option.or]
      | some x => simp [Option.or]
    · rw [if_neg hPe]
      have hfe : (e :: L).filter (fun e2 => baseOf e2.1 == b) =
          L.filter (fun e2 => baseOf e2.1 == b) := by
        rw [List.filter_cons, if_neg (by simp [hPe])]
      rw [hfe]

/-- Sorting by key is permutation-invariant when the keys are distinct. -/
theorem sortEntries_perm_eq {α : Type} (l l2 : List (String × α))
    (hnd : (l.map Prod.fst).Nodup) (hp : l.Perm l2) :
    sortEntries l = sortEntries l2 := by
  have hs1 : (sortEntries l).Pairwise (fun a b : String × α => a.1 ≤ b.1) :=
    List.sorted_insertionSort _ l
  have hs2 : (sortEntries l2).Pairwise (fun a b : String × α => a.1 ≤ b.1) :=
    List.sorted_insertionSort _ l2
  have hperm1 : (sortEntries l).Perm l := List.perm_insertionSort _ l
  have hperm2 : (sortEntries l2).Perm l2 := List.perm_insertionSort _ l2
  have hnd1 : ((sortEntries l).map Prod.fst).Nodup :=
    List.Perm.nodup (hperm1.map Prod.fst).symm hnd
  have hnd2 : ((sortEntries l2).map Prod.fst).Nodup := by
    have hk2 : (l2.map Prod.fst).Nodup := List.Perm.nodup (hp.map Prod.fst) hnd
    exact List.Perm.nodup (hperm2.map Prod.fst).symm hk2
  have hstrict : ∀ m : List (String × α), m.Pairwise (fun a b => a.1 ≤ b.1) →
      (m.map Prod.fst).Nodup → m.Pairwise (fun a b : String × α => a.1 < b.1) := by
    intro m hle hnd0
    have hne : m.Pairwise (fun a b : String × α => a.1 ≠ b.1) := List.pairwise_map.mp hnd0
    exact (pairwise_and hle hne).imp (fun h => lt_of_le_of_ne h.1 h.2)
  exact List.eq_of_perm_of_sorted (hperm1.trans (hp.trans hperm2.symm))
    (hstrict _ hs1 hnd1) (hstrict _ hs2 hnd2)

/-- **C6** (confirmed): processing runs in sorted-stem order — a
matching stem appends its base `N` times and registers its raster under
the base, a non-matching stem appends the literal stem once and
registers under the stem (both captured by `expandStem` / `baseOf`);
when distinct entries normalize to the same base, the registry holds
the payload of the **last** such entry in sort order (silent
last-write-wins); and for stem-distinct inputs the output is invariant
under reordering. -/
theorem parseUploadedFiles_spec {α : Type} (l : List (String × α))
    (hnd : (l.map Prod.fst).Nodup) :
    (∀ l2, l.Perm l2 → parseUploadedFiles l2 = parseUploadedFiles l) ∧
    (parseUploadedFiles l).1 = (sortEntries l).flatMap (fun e => expandStem e.1) ∧
    (∀ b, dictGet (parseUploadedFiles l).2 b =
      ((sortEntries l).filter (fun e => baseOf e.1 == b)).getLast?.map Prod.snd) := by
  refine ⟨?_, ?_, ?_⟩
  · intro l2 hp
    unfold parseUploadedFiles
    rw [sortEntries_perm_eq l l2 hnd hp]
  · unfold parseUploadedFiles
    rw [foldl_parseStep_fst]
    rw [List.nil_append]
  · intro b
    unfold parseUploadedFiles
    rw [foldl_parseStep_snd]
    rw [show dictGet ([] : List (String × α)) b = none from rfl, Option.or_none]

/-- Witness for **C6**: `A_x4` and `A` sorted together — five labels
`A`, raster registration last-write-wins (`A_x4`'s payload), and the
reversed input order gives the same output. -/
theorem parseUploadedFiles_spec_witness :
    (([("A_x4", (1 : Nat)), ("A", 2)].map Prod.fst).Nodup) ∧
    parseUploadedFiles [("A", (2 : Nat)), ("A_x4", 1)] =
      parseUploadedFiles [("A_x4", (1 : Nat)), ("A", 2)] ∧
    (parseUploadedFiles [("A_x4", (1 : Nat)), ("A", 2)]).1 = ["A", "A", "A", "A", "A"] ∧
    dictGet (parseUploadedFiles [("A_x4", (1 : Nat)), ("A", 2)]).2 "A" = some 1 := by
  have hne : ¬ (("A_x4" : String) ≤ "A") := by
    rw [String.le_iff_toList_le]
    decide
  have hsort : sortEntries [("A_x4", (1 : Nat)), ("A", 2)] = [("A", 2), ("A_x4", 1)] := by
    unfold sortEntries
    simp only [List.insertionSort, List.orderedInsert]
    rw [if_neg hne]
  have h := parseUploadedFiles_spec [("A_x4", (1 : Nat)), ("A", 2)] (by decide)
  refine ⟨by decide, h.1 [("A", 2), ("A_x4", 1)] (by decide), ?_, ?_⟩
  · rw [h.2.1, hsort]
    decide
  · rw [h.2.2 "A", hsort]
    decide
